import Mathlib

/-!
Verification of the rediss Sentinel-aware Redis client (rediss.go).

The Go code is shallowly embedded: the network is an explicit environment
(query replies, dial outcomes, connect latencies in nanoseconds), the
`SPool` struct is a Lean structure, and each method is a Lean function on
that structure threaded through the environment.  `redisn.Handler` values
are opaque callbacks; they are represented by opaque `Nat` identities.
Go's `map[string][]redisn.Handler` is represented by an association list;
iteration order of the model is list order.
-/

namespace Rediss

/-- The client state machine constants (rediss.go lines 418-425). -/
inductive ClientState
  | Creating
  | Bootstrapping
  | Resetting
  | Healthy
deriving DecidableEq, Repr

/-- The topology cache portion of `SPool`: the preferred sentinel `p` and
the known sentinel addresses `hps` (rediss.go lines 461-475). -/
structure Topo where
  p : String
  hps : List String
deriving DecidableEq, Repr

/-- The `SPool` struct (rediss.go lines 461-475).  `poolExists` models
whether the `pool` pointer is non-nil; the pool contents themselves live
in the external redisp/redisn packages and are observed through events. -/
structure MState where
  state : ClientState
  master : String
  masterName : String
  topo : Topo
  poolExists : Bool
  up : Bool
  n : List (String × List Nat)
deriving DecidableEq, Repr

/-- Observable pool / subscription events emitted by an execution:
`newPool` is a `redisn.New(redisp.New(...))` call, `emptyPool` a
`pool.Empty()`, `fillPool` a `pool.Fill()`, and `subIssue c k` a
`pool.NDo(c, h, k)` re-issue performed by `resubscribe`. -/
inductive Ev
  | newPool
  | emptyPool
  | fillPool
  | subIssue (c : String) (k : String)
deriving DecidableEq, Repr

/-- The struct literal in `New` (rediss.go lines 428-438): initial state
before `bootstrap`/`reset`/`pubSub` run. -/
def initState (hostPort : String) (masterName : String) : MState :=
  { state := ClientState.Creating
    master := ""
    masterName := masterName
    topo := { p := hostPort, hps := [hostPort] }
    poolExists := false
    up := true
    n := [] }

/-! ### String helpers (models of the Go standard library calls used) -/

/-- Split a character list at the first occurrence of `sep`:
`some (before, after)` when `sep` occurs, `none` otherwise. -/
def splitAtFirst (sep : Char) : List Char → Option (List Char × List Char)
  | [] => none
  | c :: cs =>
    if c = sep then some ([], cs)
    else
      match splitAtFirst sep cs with
      | none => none
      | some (a, b) => some (c :: a, b)

/-- Model of Go `strings.SplitN(s, sep, n)` for a one-character separator
and `n ≥ 0` (Go returns `nil` for `n = 0`, the whole string for `n = 1`). -/
def goSplitN (sep : Char) : Nat → List Char → List (List Char)
  | 0, _ => []
  | 1, s => [s]
  | n + 2, s =>
    match splitAtFirst sep s with
    | none => [s]
    | some (a, b) => a :: goSplitN sep (n + 1) b

/-- Model of `strings.SplitN(ck, ":", 2)` followed by the accesses
`tmp[0]` / `tmp[1]` done by `resubscribe` (rediss.go lines 700-702).
Registry keys always contain a colon, so the separator-free branch
(where Go would crash on `tmp[1]`) is unreachable there. -/
def splitN2At (sep : Char) (s : String) : String × String :=
  match splitAtFirst sep s.toList with
  | some (a, b) => (String.mk a, String.mk b)
  | none => (s, "")

/-- Model of Go `strings.ToUpper` restricted to the ASCII range, which is
all the role strings ("master", "slave", "sentinel") can contain. -/
def goToUpper (s : String) : String := String.mk (s.toList.map Char.toUpper)

/-- Model of Go `strings.HasSuffix`. -/
def goHasSuffix (s : String) (suffix : String) : Bool :=
  suffix.toList.isSuffixOf s.toList

/-! ### Model of `net.ParseIP(host).To4()` (Go net/ip.go)

`reset` decides bracket-wrapping of the reported master host with
`net.ParseIP(host).To4() == nil` (rediss.go line 584).  The parser below
follows the Go standard library: `ParseIP` dispatches on the first `'.'`
or `':'`; dotted-decimal parsing uses `dtoi` with the `big = 0xFFFFFF`
cutoff; IPv6 parsing fills sixteen bytes with hex groups, one optional
`::` ellipsis and an optional embedded dotted quad; `To4` is non-nil
exactly when the sixteen-byte form starts with the IPv4-in-IPv6 prefix
(ten zero bytes then `0xff 0xff`). -/

/-- The `big` cutoff constant of Go's `dtoi`/`xtoi` (0xFFFFFF). -/
def bigCutoff : Nat := 0xFFFFFF

/-- Go `dtoi`: longest decimal prefix; fails on no digits or on reaching
`big`.  Returns the value and the number of characters consumed. -/
def dtoiGo : List Char → Nat → Nat → Option (Nat × Nat)
  | [], n, i => if i = 0 then none else some (n, i)
  | c :: cs, n, i =>
    if c.isDigit then
      let n' := n * 10 + (c.toNat - '0'.toNat)
      if bigCutoff ≤ n' then none else dtoiGo cs n' (i + 1)
    else if i = 0 then none else some (n, i)

/-- Hexadecimal value of a character, as in Go `xtoi`. -/
def hexVal (c : Char) : Option Nat :=
  if '0' ≤ c ∧ c ≤ '9' then some (c.toNat - '0'.toNat)
  else if 'a' ≤ c ∧ c ≤ 'f' then some (c.toNat - 'a'.toNat + 10)
  else if 'A' ≤ c ∧ c ≤ 'F' then some (c.toNat - 'A'.toNat + 10)
  else none

/-- Go `xtoi`: longest hexadecimal prefix; fails on no digits or on
reaching `big`.  Returns the value and the number of characters consumed. -/
def xtoiGo : List Char → Nat → Nat → Option (Nat × Nat)
  | [], n, i => if i = 0 then none else some (n, i)
  | c :: cs, n, i =>
    match hexVal c with
    | none => if i = 0 then none else some (n, i)
    | some v =>
      let n' := n * 16 + v
      if bigCutoff ≤ n' then none else xtoiGo cs n' (i + 1)

/-- One field of Go `parseIPv4` plus the remaining fields: `k` fields
left to parse, a `'.'` expected before every field but the first. -/
def parseV4From : List Char → Nat → List Nat → Option (List Nat)
  | s, 0, acc => if s = [] then some acc else none
  | s, k + 1, acc =>
    let s? : Option (List Char) :=
      if acc = [] then some s
      else
        match s with
        | '.' :: r => some r
        | _ => none
    match s? with
    | none => none
    | some s1 =>
      match dtoiGo s1 0 0 with
      | none => none
      | some (n, i) =>
        if 255 < n then none else parseV4From (s1.drop i) k (acc ++ [n])

/-- Go `parseIPv4`: the four bytes of a dotted-decimal literal. -/
def parseIPv4Go (s : List Char) : Option (List Nat) :=
  parseV4From s 4 []

/-- The byte-filling loop of Go `parseIPv6`.  State: remaining input,
accumulated bytes (length is Go's `i`), and the ellipsis position.
Returns the bytes, the ellipsis position and the unconsumed input.
The fuel only bounds the recursion; each pass adds at least two bytes,
so sixteen units can never be exhausted. -/
def v6Loop : Nat → List Char → List Nat → Option Nat →
    Option (List Nat × Option Nat × List Char)
  | 0, _, _, _ => none
  | fuel + 1, s, acc, ell =>
    if 16 ≤ acc.length then some (acc, ell, s)
    else
      match xtoiGo s 0 0 with
      | none => none
      | some (n, c) =>
        if 0xFFFF < n then none
        else if (s.drop c).head? = some '.' then
          if ell = none ∧ acc.length ≠ 12 then none
          else if 16 < acc.length + 4 then none
          else
            match parseIPv4Go s with
            | none => none
            | some b4 => some (acc ++ b4, ell, [])
        else
          let acc' := acc ++ [n / 256, n % 256]
          match s.drop c with
          | [] => some (acc', ell, [])
          | ':' :: rest =>
            match rest with
            | [] => none
            | ':' :: rest2 =>
              if ell.isSome then none
              else
                match rest2 with
                | [] => some (acc', some acc'.length, [])
                | _ => v6Loop fuel rest2 acc' (some acc'.length)
            | _ => v6Loop fuel rest acc' ell
          | _ => none

/-- Go `parseIPv6` (zone identifiers not allowed, as in `net.ParseIP`):
the sixteen bytes of an IPv6 literal. -/
def parseIPv6Go (s : List Char) : Option (List Nat) :=
  let startEll : List Char × Option Nat :=
    match s with
    | ':' :: ':' :: rest => (rest, some 0)
    | _ => (s, none)
  if startEll.2 = some 0 ∧ startEll.1 = [] then some (List.replicate 16 0)
  else
    match v6Loop 16 startEll.1 [] startEll.2 with
    | none => none
    | some (acc, ell, rest) =>
      if rest ≠ [] then none
      else if acc.length < 16 then
        match ell with
        | none => none
        | some e =>
          some (acc.take e ++ List.replicate (16 - acc.length) 0 ++ acc.drop e)
      else if ell.isSome then none
      else some acc

/-- The IPv4-in-IPv6 prefix (Go `v4InV6Prefix`). -/
def v4InV6Pfx : List Nat := [0, 0, 0, 0, 0, 0, 0, 0, 0, 0, 255, 255]

/-- Go `net.ParseIP`: dispatch on the first `'.'` or `':'`.  A
dotted-decimal parse yields the sixteen-byte IPv4-in-IPv6 form, as
Go's `IPv4()` constructor does. -/
def goParseIP (s : String) : Option (List Nat) :=
  match s.toList.find? (fun c => c == '.' || c == ':') with
  | some '.' => (parseIPv4Go s.toList).map (fun b4 => v4InV6Pfx ++ b4)
  | some ':' => parseIPv6Go s.toList
  | _ => none

/-- `net.ParseIP(s).To4() != nil`: the parse succeeded and the sixteen
bytes start with the IPv4-in-IPv6 prefix. -/
def goTo4Some (s : String) : Bool :=
  match goParseIP s with
  | none => false
  | some b => decide (b.take 12 = v4InV6Pfx)

/-- The master address formed by `reset` from the sentinel reply
(rediss.go lines 582-587): wrap the host in brackets unless
`net.ParseIP(host).To4()` is non-nil, then join with the port. -/
def mkMaddr (host : String) (port : String) : String :=
  (if goTo4Some host then host else "[" ++ host ++ "]") ++ ":" ++ port

/-! ### Sentinel discovery (`findPreferred`, rediss.go lines 506-551) -/

/-- One second in nanoseconds: the initial value of `fastest`. -/
def oneSecondNs : Nat := 1000000000

/-- 100 milliseconds in nanoseconds: the `DialTimeout` bound. -/
def timeout100Ns : Nat := 100000000

/-- Model of `net.DialTimeout("tcp", a, 100ms)` followed by the elapsed
time measurement: the environment gives the connect latency of each
address (`none` = unreachable); the dial succeeds exactly when the
latency beats the 100 ms timeout. -/
def dialTimeoutProbe (connectNs : String → Option Nat) (a : String) : Option Nat :=
  match connectNs a with
  | none => none
  | some d => if d < timeout100Ns then some d else none

/-- The latency minimum-scan of `findPreferred` (rediss.go lines 537-550):
fold over the known addresses carrying `(p, fastest)`; a successful probe
strictly below `fastest` installs the address. -/
def scanFastest (probe : String → Option Nat) :
    List String → String × Nat → String × Nat
  | [], acc => acc
  | fhp :: rest, acc =>
    scanFastest probe rest
      (match dialTimeoutProbe probe fhp with
       | none => acc
       | some d => if d < acc.2 then (fhp, d) else acc)

/-- The host:port string of one sentinel record of the peer-list reply
(`v[3]` and `v[5]`, rediss.go lines 522-524). -/
def recHp (v : List String) : String := v.getD 3 "" ++ ":" ++ v.getD 5 ""

/-- The merge phase of `findPreferred` (rediss.go lines 520-536): append
each reported address not already present by exact string match. -/
def mergeHps : List String → List (List String) → List String
  | hps, [] => hps
  | hps, v :: vs =>
    if recHp v ∈ hps then mergeHps hps vs
    else mergeHps (hps ++ [recHp v]) vs

/-- Environment of one `findPreferred` invocation: `queryOk` is the
success of dialing the preferred sentinel and of the
`SENTINEL sentinels` query (failure of either makes the Go code crash
with a runtime error, modelled as `none`); `records` is the parsed reply;
`connectNs` gives the connect latencies for the probe phase. -/
structure FPEnv where
  queryOk : Bool
  records : List (List String)
  connectNs : String → Option Nat

/-- `findPreferred` (rediss.go lines 506-551): default the preferred
sentinel to the first known address when unset, query the peer list,
merge new addresses, then run the latency scan over all known addresses
starting from `fastest = 1s`.  `none` models the function's runtime
errors (dial or query failure, or a peer record too short for the
`v[3]`/`v[5]` accesses). -/
def findPreferred (env : FPEnv) (t : Topo) : Option Topo :=
  let p0 := if t.p.length = 0 then t.hps.headD "" else t.p
  if env.queryOk = false then none
  else if env.records.all (fun v => 6 ≤ v.length) = false then none
  else
    let hps' := mergeHps t.hps env.records
    some { p := (scanFastest env.connectNs hps' (p0, oneSecondNs)).1, hps := hps' }

/-- A sequence of `findPreferred` invocations, crashing on the first
failing one. -/
def runDiscoveries : List FPEnv → Topo → Option Topo
  | [], t => some t
  | e :: es, t =>
    match findPreferred e t with
    | none => none
    | some t' => runDiscoveries es t'

/-! ### Subscription registry (`NDo`, `NUnDo`, `resubscribe`,
rediss.go lines 683-716) -/

/-- The registry update of `NDo` for one key (rediss.go lines 687-692):
create the entry when absent, then append the handler. -/
def regAppend : List (String × List Nat) → String → Nat → List (String × List Nat)
  | [], ck, h => [(ck, [h])]
  | e :: rest, ck, h =>
    if e.1 = ck then (e.1, e.2 ++ [h]) :: rest
    else e :: regAppend rest ck h

/-- The registry effect of `SPool.NDo` (rediss.go lines 683-696): when
the underlying `pool.NDo` succeeded (`ok`), record `command ++ ":" ++ k
↦ handler` for every key. -/
def NDo (ok : Bool) (n : List (String × List Nat)) (command : String)
    (handler : Nat) (keys : List String) : List (String × List Nat) :=
  if ok then keys.foldl (fun acc k => regAppend acc (command ++ ":" ++ k) handler) n
  else n

/-- The registry effect of `SPool.NUnDo` (rediss.go lines 709-716): the
entries are deleted unconditionally, whatever the underlying
`pool.NUnDo` returned. -/
def NUnDo (n : List (String × List Nat)) (command : String)
    (keys : List String) : List (String × List Nat) :=
  keys.foldl (fun acc k => acc.filter (fun e => e.1 != (command ++ ":" ++ k))) n

/-- `resubscribe` (rediss.go lines 698-707): for every registry entry,
split the key at its first colon into command and key and call `SPool.NDo`
once per recorded handler, ignoring errors.  `subEnv c k` is the success
of the underlying `pool.NDo` call; the second component lists the
(command, key) pairs issued, in order.  The handler list of an entry is
the one read when the entry is reached, as in Go, where the loop variable
snapshots the slice while `NDo` mutates the map. -/
def resubscribe (subEnv : String → String → Bool)
    (n : List (String × List Nat)) :
    List (String × List Nat) × List (String × String) :=
  n.foldl
    (fun acc e =>
      let ck := splitN2At ':' e.1
      e.2.foldl
        (fun acc2 h =>
          (NDo (subEnv ck.1 ck.2) acc2.1 ck.1 h [ck.2], acc2.2 ++ [(ck.1, ck.2)]))
        acc)
    (n, [])

/-! ### Master resolution loop (`reset`, rediss.go lines 553-613) -/

/-- Environment of one iteration of the resolution loop:
`sentinelDialOk` is the dial of the preferred sentinel,
`masterAddrReply` the `SENTINEL get-master-addr-by-name` reply
(`none` = error), `masterDialOk` the dial of the candidate master,
`roleReply` the first element of the candidate's `ROLE` reply
(`none` = error), and `fpEnv` the environment of the `findPreferred`
call made when the sentinel dial or query fails. -/
structure IterEnv where
  sentinelDialOk : Bool
  masterAddrReply : Option (String × String)
  masterDialOk : Bool
  roleReply : Option String
  fpEnv : FPEnv

/-- Outcome of one loop iteration: `crash` is a propagated
`findPreferred` runtime error, `cont` a `continue`, `installed` the
`s.master = maddr; break` path. -/
inductive IterOut
  | crash
  | cont (t : Topo)
  | installed (t : Topo) (maddr : String)
deriving DecidableEq, Repr

/-- One iteration of the `for` loop of `reset` (rediss.go lines 565-608). -/
def resetIter (env : IterEnv) (t : Topo) : IterOut :=
  if env.sentinelDialOk = false then
    match findPreferred env.fpEnv t with
    | none => IterOut.crash
    | some t' => IterOut.cont t'
  else
    match env.masterAddrReply with
    | none =>
      match findPreferred env.fpEnv t with
      | none => IterOut.crash
      | some t' => IterOut.cont t'
    | some (host, port) =>
      let maddr := mkMaddr host port
      if env.masterDialOk = false then IterOut.cont t
      else
        match env.roleReply with
        | none => IterOut.cont t
        | some role =>
          if goToUpper role = "MASTER" then IterOut.installed t maddr
          else IterOut.cont t

/-- The resolution loop run against a list of iteration environments;
`none` means the loop neither installed a master nor crashed within the
supplied environments (it would still be running), or crashed. -/
def resetLoop : List IterEnv → Topo → Option (Topo × String)
  | [], _ => none
  | e :: es, t =>
    match resetIter e t with
    | IterOut.crash => none
    | IterOut.cont t' => resetLoop es t'
    | IterOut.installed t' maddr => some (t', maddr)

/-- `reset` (rediss.go lines 553-613).  The re-entrancy guard returns at
once when already `Resetting`.  Otherwise: possibly create the pool
(only when it is nil and a master is cached), drain it if present, clear
the master, run the resolution loop, then recreate and fill the pool,
become `Healthy` and replay the subscriptions.  The returned event list
records the pool operations and replay issues in order; `none` models a
non-terminating (or crashed) resolution loop. -/
def reset (envs : List IterEnv) (subEnv : String → String → Bool)
    (s : MState) : Option (MState × List Ev) :=
  if s.state = ClientState.Resetting then some (s, [])
  else
    let preCreate : Bool :=
      if s.poolExists then false else if s.master = "" then false else true
    let poolAfterPre : Bool := s.poolExists || preCreate
    let evs0 : List Ev :=
      (if preCreate then [Ev.newPool] else []) ++
        (if poolAfterPre then [Ev.emptyPool] else [])
    match resetLoop envs s.topo with
    | none => none
    | some (t', maddr) =>
      let r := resubscribe subEnv s.n
      some
        ({ s with
            state := ClientState.Healthy
            master := maddr
            topo := t'
            poolExists := true
            n := r.1 },
          evs0 ++ [Ev.newPool, Ev.fillPool] ++
            r.2.map (fun ck => Ev.subIssue ck.1 ck.2))

/-! ### Health monitor (`pubSub`, rediss.go lines 615-649) -/

/-- The three channels subscribed by `pubSub`. -/
inductive SChan
  | odownDown
  | odownUp
  | switchMaster
deriving DecidableEq, Repr

/-- `isMasterName` (rediss.go lines 617-624): split the message at the
first two spaces; a message with fewer than three parts is logged and
ignored; otherwise compare the second part with the master name. -/
def isMasterName (masterName : String) (msg : String) : Bool :=
  let msga := goSplitN ' ' 3 msg.toList
  if msga.length < 3 then false
  else decide (msga.getD 1 [] = masterName.toList)

/-- Effect of one delivered pub/sub message on the `Up` flag
(rediss.go lines 625-648): handler errors return at once; `+odown`
clears the flag for a relevant message, `-odown` and `switch-master`
set it. -/
def pubSubStep (masterName : String) (ch : SChan) (msg : String)
    (errFlag : Bool) (up : Bool) : Bool :=
  if errFlag then up
  else
    match ch with
    | SChan.odownDown => if isMasterName masterName msg then false else up
    | SChan.odownUp => if isMasterName masterName msg then true else up
    | SChan.switchMaster => if isMasterName masterName msg then true else up

/-! ### The connection factory (`s.creator`, rediss.go lines 440-455) -/

/-- Outcome of `net.Dial("tcp", addr)`: a connection or an error string. -/
inductive DialRes
  | conn
  | failed (msg : String)
deriving DecidableEq, Repr

/-- Environment of one factory invocation: the two dial attempts and the
environment of the `reset` triggered between them. -/
structure CreatorEnv where
  dial1 : String → DialRes
  resetEnvs : List IterEnv
  subEnv : String → String → Bool
  dial2 : String → DialRes

/-- Outcome of one factory invocation: a connection to an address, a
runtime error escalated out of the factory, or a `reset` that never
returned within its environment. -/
inductive CreatorOut
  | connected (s : MState) (evs : List Ev) (addr : String)
  | escalated (s : MState) (evs : List Ev)
  | hung
deriving DecidableEq, Repr

/-- The pool's connection factory (rediss.go lines 440-455): dial the
cached master; on an error whose text ends in "connection refused", run
the full `reset` and retry the dial once against the updated master; a
failure of the retry, or any other dial error, escalates. -/
def creator (env : CreatorEnv) (s : MState) : CreatorOut :=
  match env.dial1 s.master with
  | DialRes.conn => CreatorOut.connected s [] s.master
  | DialRes.failed msg =>
    if goHasSuffix msg "connection refused" then
      match reset env.resetEnvs env.subEnv s with
      | none => CreatorOut.hung
      | some (s', evs) =>
        match env.dial2 s'.master with
        | DialRes.conn => CreatorOut.connected s' evs s'.master
        | DialRes.failed _ => CreatorOut.escalated s' evs
    else CreatorOut.escalated s []

/-! ## Helper lemmas -/

/-- Pairs issued by `resubscribe` never count as pool lifecycle events. -/
theorem count_fillPool_subIssues (l : List (String × String)) :
    (l.map (fun ck => Ev.subIssue ck.1 ck.2)).count Ev.fillPool = 0 := by
  induction l with
  | nil => rfl
  | cons a rest ih => simpa [List.count_cons] using ih

/-- Appending two strings concatenates their character lists. -/
theorem string_toList_append (a b : String) :
    (a ++ b).toList = a.toList ++ b.toList := rfl

/-- `splitAtFirst` finds nothing exactly on separator-free input. -/
theorem splitAtFirst_of_not_mem {sep : Char} :
    ∀ {cs : List Char}, sep ∉ cs → splitAtFirst sep cs = none := by
  intro cs
  induction cs with
  | nil => intro _; rfl
  | cons c cs ih =>
    intro h
    have hc : ¬c = sep := fun e => h (List.mem_cons.mpr (Or.inl e.symm))
    have hcs : sep ∉ cs := fun m => h (List.mem_cons_of_mem c m)
    simp [splitAtFirst, hc, ih hcs]

/-- `splitAtFirst` finds something whenever the separator occurs. -/
theorem splitAtFirst_of_mem {sep : Char} :
    ∀ {cs : List Char}, sep ∈ cs → ∃ a b, splitAtFirst sep cs = some (a, b) := by
  intro cs
  induction cs with
  | nil => intro h; cases h
  | cons c cs ih =>
    intro h
    by_cases hc : c = sep
    · exact ⟨[], cs, by simp [splitAtFirst, hc]⟩
    · have hm : sep ∈ cs := by
        rcases List.mem_cons.mp h with h1 | h1
        · exact absurd h1.symm hc
        · exact h1
      obtain ⟨a, b, hab⟩ := ih hm
      exact ⟨c :: a, b, by simp [splitAtFirst, hc, hab]⟩

/-- Splitting `cs ++ sep :: ks` when `cs` is separator-free yields
`(cs, ks)`. -/
theorem splitAtFirst_append_none {sep : Char} :
    ∀ {cs : List Char} (ks : List Char), sep ∉ cs →
      splitAtFirst sep (cs ++ sep :: ks) = some (cs, ks) := by
  intro cs
  induction cs with
  | nil => intro ks _; simp [splitAtFirst]
  | cons c cs ih =>
    intro ks h
    have hc : ¬c = sep := fun e => h (List.mem_cons.mpr (Or.inl e.symm))
    have hcs : sep ∉ cs := fun m => h (List.mem_cons_of_mem c m)
    simp [splitAtFirst, hc, ih ks hcs]

/-- A split of `cs` extends to a split of `cs ++ l`. -/
theorem splitAtFirst_append_some {sep : Char} :
    ∀ {cs a b : List Char} (l : List Char), splitAtFirst sep cs = some (a, b) →
      splitAtFirst sep (cs ++ l) = some (a, b ++ l) := by
  intro cs
  induction cs with
  | nil => intro a b l h; cases h
  | cons c cs ih =>
    intro a b l h
    unfold splitAtFirst at h
    by_cases hc : c = sep
    · rw [if_pos hc] at h
      cases h
      simp [splitAtFirst, hc]
    · rw [if_neg hc] at h
      rcases hs : splitAtFirst sep cs with _ | ⟨a', b'⟩ <;> rw [hs] at h
      · cases h
      · cases h
        simp [splitAtFirst, hc, ih l hs]

/-- The two parts of a split account for all of the input but the
separator. -/
theorem splitAtFirst_length {sep : Char} :
    ∀ {cs a b : List Char}, splitAtFirst sep cs = some (a, b) →
      cs.length = a.length + 1 + b.length := by
  intro cs
  induction cs with
  | nil => intro a b h; cases h
  | cons c cs ih =>
    intro a b h
    unfold splitAtFirst at h
    by_cases hc : c = sep
    · rw [if_pos hc] at h
      cases h
      simp only [List.length_cons, List.length_nil]
      omega
    · rw [if_neg hc] at h
      rcases hs : splitAtFirst sep cs with _ | ⟨a', b'⟩ <;> rw [hs] at h
      · cases h
      · cases h
        have := ih hs
        simp only [List.length_cons]
        omega

/-! ## Claims -/

/-- Claim C2: calling `reset` while the client state is already
`Resetting` is a no-op: it returns immediately with every field of the
client unchanged and emits no pool event; a completed non-re-entrant
`reset` performs exactly one pool fill, so a resolution trigger arriving
while a cycle is in flight adds no second drain/refill cycle. -/
theorem reset_reentrant_noop :
    (∀ envs subEnv (s : MState), s.state = ClientState.Resetting →
        reset envs subEnv s = some (s, [])) ∧
    (∀ envs subEnv (s s' : MState) evs, s.state ≠ ClientState.Resetting →
        reset envs subEnv s = some (s', evs) →
        evs.count Ev.fillPool = 1) := by
  constructor
  · intro envs subEnv s h
    simp [reset, h]
  · intro envs subEnv s s' evs h hr
    unfold reset at hr
    rw [if_neg h] at hr
    rcases hloop : resetLoop envs s.topo with _ | ⟨t', maddr⟩ <;> rw [hloop] at hr
    · cases hr
    · obtain ⟨-, hevs⟩ := Prod.mk.injEq .. ▸ (Option.some.injEq .. ▸ hr)
      subst hevs
      simp [List.count_append, count_fillPool_subIssues, List.count_cons]
      split <;> split <;> simp [List.count_cons, List.count_nil]

/-- Witness for C2 at a concrete `Resetting` state and a concrete
completed cycle. -/
theorem reset_reentrant_noop_witness :
    reset [] (fun _ _ => true)
      { state := ClientState.Resetting, master := "m:1", masterName := "mm",
        topo := { p := "s1", hps := ["s1"] }, poolExists := true, up := true,
        n := [] } =
      some
        ({ state := ClientState.Resetting, master := "m:1", masterName := "mm",
           topo := { p := "s1", hps := ["s1"] }, poolExists := true, up := true,
           n := [] }, []) :=
  reset_reentrant_noop.1 [] (fun _ _ => true) _ rfl

/-- Claim C3 (code bug): replaying the registry calls `SPool.NDo`, which
re-registers each handler, so a successful replay doubles every handler
list and the second cycle re-issues the pair twice; unregistered entries
are, as the claim says, never resurrected. -/
theorem resubscribe_doubles_registry :
    resubscribe (fun _ _ => true) [("SUBSCRIBE:x", [0])] =
      ([("SUBSCRIBE:x", [0, 0])], [("SUBSCRIBE", "x")]) ∧
    (resubscribe (fun _ _ => true) [("SUBSCRIBE:x", [0, 0])]).2 =
      [("SUBSCRIBE", "x"), ("SUBSCRIBE", "x")] ∧
    (resubscribe (fun _ _ => true)
        (NUnDo [("SUBSCRIBE:x", [0])] "SUBSCRIBE" ["x"])).2 = [] := by
  decide

/-- Claim C7: the availability flag starts true; a delivered `+odown`
message whose second space-delimited field is the configured master name
clears it, a `-odown` or `switch-master` message for that name sets it;
a message with fewer than three fields, or naming a different master,
never changes the flag. -/
theorem pubSub_flag_updates :
    (∀ hostPort masterName, (initState hostPort masterName).up = true) ∧
    (∀ mn msg up, isMasterName mn msg = true →
        pubSubStep mn SChan.odownDown msg false up = false ∧
        pubSubStep mn SChan.odownUp msg false up = true ∧
        pubSubStep mn SChan.switchMaster msg false up = true) ∧
    (∀ mn msg ch e up, isMasterName mn msg = false →
        pubSubStep mn ch msg e up = up) ∧
    (∀ mn msg, (goSplitN ' ' 3 msg.toList).length < 3 →
        isMasterName mn msg = false) ∧
    (∀ mn msg, isMasterName mn msg = true ↔
        (3 ≤ (goSplitN ' ' 3 msg.toList).length ∧
          (goSplitN ' ' 3 msg.toList).getD 1 [] = mn.toList)) := by
  refine ⟨fun _ _ => rfl, fun mn msg up h => ?_, fun mn msg ch e up h => ?_,
    fun mn msg h => ?_, fun mn msg => ?_⟩
  · exact ⟨by simp [pubSubStep, h], by simp [pubSubStep, h], by simp [pubSubStep, h]⟩
  · cases e <;> cases ch <;> simp [pubSubStep, h]
  · unfold isMasterName
    rw [if_pos h]
  · constructor
    · intro h
      unfold isMasterName at h
      by_cases hl : (goSplitN ' ' 3 msg.toList).length < 3
      · rw [if_pos hl] at h; cases h
      · rw [if_neg hl] at h
        exact ⟨by omega, of_decide_eq_true h⟩
    · rintro ⟨h3, hf⟩
      unfold isMasterName
      rw [if_neg (by omega)]
      exact decide_eq_true hf

/-- Witness for C7 at a concrete relevant message and a concrete
irrelevant one. -/
theorem pubSub_flag_updates_witness :
    (pubSubStep "mymaster" SChan.odownDown "master mymaster 127.0.0.1 6379" false true = false ∧
      pubSubStep "mymaster" SChan.odownUp "master mymaster 127.0.0.1 6379" false false = true ∧
      pubSubStep "mymaster" SChan.switchMaster "master mymaster 127.0.0.1 6379" false false = true) ∧
    pubSubStep "mymaster" SChan.odownDown "master other 127.0.0.1 6379" false true = true :=
  ⟨pubSub_flag_updates.2.1 "mymaster" "master mymaster 127.0.0.1 6379" true (by decide),
    pubSub_flag_updates.2.2.1 "mymaster" "master other 127.0.0.1 6379"
      SChan.odownDown false true (by decide)⟩

/-- Claim C8: the pool's connection factory dials the cached master; a
dial error whose text ends in "connection refused" triggers the full
`reset` and one retry against the updated master address; a failure of
the retry, or any other dial error, escalates out of that connection
attempt (it does not re-run `reset`). -/
theorem creator_dial_retry :
    ∀ (env : CreatorEnv) (s : MState),
      (env.dial1 s.master = DialRes.conn →
        creator env s = CreatorOut.connected s [] s.master) ∧
      (∀ m, env.dial1 s.master = DialRes.failed m →
        goHasSuffix m "connection refused" = true →
        ∀ s' evs, reset env.resetEnvs env.subEnv s = some (s', evs) →
          creator env s =
            (match env.dial2 s'.master with
             | DialRes.conn => CreatorOut.connected s' evs s'.master
             | DialRes.failed _ => CreatorOut.escalated s' evs)) ∧
      (∀ m, env.dial1 s.master = DialRes.failed m →
        goHasSuffix m "connection refused" = false →
        creator env s = CreatorOut.escalated s []) := by
  intro env s
  refine ⟨fun h => ?_, fun m h hsuf s' evs hr => ?_, fun m h hsuf => ?_⟩
  · simp [creator, h]
  · simp [creator, h, hsuf, hr]
  · simp [creator, h, hsuf]

/-- Witness for C8: a refused first dial, a reset that installs a fresh
master, and a successful retry against the new address. -/
theorem creator_dial_retry_witness :
    creator
      { dial1 := fun _ => DialRes.failed "dial tcp: connection refused"
        resetEnvs := [{ sentinelDialOk := true,
                        masterAddrReply := some ("10.0.0.5", "6379"),
                        masterDialOk := true, roleReply := some "master",
                        fpEnv := { queryOk := true, records := [],
                                   connectNs := fun _ => none } }]
        subEnv := fun _ _ => true
        dial2 := fun _ => DialRes.conn }
      { state := ClientState.Healthy, master := "old:1", masterName := "mm",
        topo := { p := "s1", hps := ["s1"] }, poolExists := true, up := true,
        n := [] } =
      CreatorOut.connected
        { state := ClientState.Healthy, master := "10.0.0.5:6379",
          masterName := "mm", topo := { p := "s1", hps := ["s1"] },
          poolExists := true, up := true, n := [] }
        [Ev.emptyPool, Ev.newPool, Ev.fillPool] "10.0.0.5:6379" :=
  (creator_dial_retry _ _).2.1 "dial tcp: connection refused" rfl (by decide)
    _ _ (by decide)

/-- Claim C9: the address installed by the resolution loop is
`host:port` when `net.ParseIP(host).To4()` is non-nil (the host parses
as an IPv4 address) and `[host]:port` otherwise; in particular host
`::1` with port `6379` is installed as `[::1]:6379`. -/
theorem master_addr_bracketing :
    (∀ host port : String,
        mkMaddr host port =
          (if goTo4Some host then host ++ ":" ++ port
           else ("[" ++ host ++ "]") ++ ":" ++ port)) ∧
    mkMaddr "::1" "6379" = "[::1]:6379" ∧
    mkMaddr "10.0.0.5" "6379" = "10.0.0.5:6379" ∧
    goTo4Some "::1" = false ∧
    goTo4Some "10.0.0.5" = true ∧
    (∀ env t t' maddr host port,
        env.masterAddrReply = some (host, port) →
        resetIter env t = IterOut.installed t' maddr →
        maddr = mkMaddr host port) := by
  refine ⟨fun host port => ?_, by decide, by decide, by decide, by decide,
    fun env t t' maddr host port hrep hit => ?_⟩
  · by_cases h : goTo4Some host
    · simp [mkMaddr, h]
    · simp [mkMaddr, h]
  · unfold resetIter at hit
    by_cases hsd : env.sentinelDialOk = false
    · rw [if_pos hsd] at hit
      rcases hfp : findPreferred env.fpEnv t with _ | t2 <;> rw [hfp] at hit <;>
        cases hit
    · rw [if_neg hsd, hrep] at hit
      dsimp only at hit
      by_cases hmd : env.masterDialOk = false
      · rw [if_pos hmd] at hit
        cases hit
      · rw [if_neg hmd] at hit
        rcases hrr : env.roleReply with _ | role <;> rw [hrr] at hit <;>
          dsimp only at hit
        · cases hit
        · by_cases hru : goToUpper role = "MASTER"
          · rw [if_pos hru] at hit
            cases hit
            rfl
          · rw [if_neg hru] at hit
            cases hit

/-- Witness for C9: an iteration whose sentinel reports host `::1` and
port `6379` installs exactly `[::1]:6379`. -/
theorem master_addr_bracketing_witness :
    "[::1]:6379" = mkMaddr "::1" "6379" :=
  master_addr_bracketing.2.2.2.2.2
    { sentinelDialOk := true, masterAddrReply := some ("::1", "6379"),
      masterDialOk := true, roleReply := some "master",
      fpEnv := { queryOk := true, records := [], connectNs := fun _ => none } }
    { p := "s1", hps := ["s1"] } { p := "s1", hps := ["s1"] } "[::1]:6379"
    "::1" "6379" rfl (by decide)

/-- Claim C10: registry entries are keyed by `command ++ ":" ++ key` and
replay recovers the pair by splitting at the first colon, so replay
re-issues exactly the registered command and key whenever the command
contains no colon, while a command containing a colon is replayed
truncated, with a key different from the registered one. -/
theorem resubscribe_splits_first_colon :
    ∀ (subEnv : String → String → Bool) (command key : String) (h : Nat),
      (resubscribe subEnv [(command ++ ":" ++ key, [h])]).2 =
        [splitN2At ':' (command ++ ":" ++ key)] ∧
      (':' ∉ command.toList →
        splitN2At ':' (command ++ ":" ++ key) = (command, key)) ∧
      (':' ∈ command.toList →
        (splitN2At ':' (command ++ ":" ++ key)).1.length < command.length ∧
        (splitN2At ':' (command ++ ":" ++ key)).1 ≠ command ∧
        (splitN2At ':' (command ++ ":" ++ key)).2 ≠ key) := by
  intro subEnv command key h
  have hlist : (command ++ ":" ++ key).toList =
      command.toList ++ ':' :: key.toList := by
    rw [string_toList_append, string_toList_append, List.append_assoc]
    rfl
  refine ⟨?_, fun hnot => ?_, fun hmem => ?_⟩
  · simp [resubscribe]
  · unfold splitN2At
    rw [hlist, splitAtFirst_append_none key.toList hnot]
    rfl
  · obtain ⟨a, b, hab⟩ := splitAtFirst_of_mem hmem
    have hfull : splitAtFirst ':' ((command ++ ":" ++ key).toList) =
        some (a, b ++ ':' :: key.toList) := by
      rw [hlist]
      exact splitAtFirst_append_some _ hab
    have hlen := splitAtFirst_length hab
    have hsplit : splitN2At ':' (command ++ ":" ++ key) =
        (String.mk a, String.mk (b ++ ':' :: key.toList)) := by
      unfold splitN2At
      rw [hfull]
    rw [hsplit]
    have hcl : command.length = command.toList.length := rfl
    dsimp only
    refine ⟨?_, ?_, ?_⟩
    · show a.length < command.length
      rw [hcl]
      omega
    · intro he
      have h1 := congrArg String.length he
      have h2 : (String.mk a).length = a.length := rfl
      rw [h2, hcl] at h1
      omega
    · intro he
      have h1 := congrArg String.length he
      have h2 : (String.mk (b ++ ':' :: key.toList)).length =
          b.length + (key.toList.length + 1) := by
        show (b ++ ':' :: key.toList).length = _
        simp
      have h4 : key.length = key.toList.length := rfl
      rw [h2, h4] at h1
      omega

/-- Witness for C10: the colon-bearing command `A:B` with key `k` is
replayed truncated to command `A` with key `B:k`. -/
theorem resubscribe_splits_first_colon_witness :
    (resubscribe (fun _ _ => true) [("A:B" ++ ":" ++ "k", [0])]).2 =
        [splitN2At ':' ("A:B" ++ ":" ++ "k")] ∧
      (splitN2At ':' ("A:B" ++ ":" ++ "k")).1.length < ("A:B" : String).length ∧
      (splitN2At ':' ("A:B" ++ ":" ++ "k")).1 ≠ "A:B" ∧
      (splitN2At ':' ("A:B" ++ ":" ++ "k")).2 ≠ "k" :=
  ⟨(resubscribe_splits_first_colon (fun _ _ => true) "A:B" "k" 0).1,
    (resubscribe_splits_first_colon (fun _ _ => true) "A:B" "k" 0).2.2 (by decide)⟩

/-- An installing iteration passed the role check and built the address
from the sentinel's host/port reply, leaving the topology untouched. -/
theorem resetIter_installed_role {env : IterEnv} {t t' : Topo} {maddr : String}
    (h : resetIter env t = IterOut.installed t' maddr) :
    ∃ host port role,
      env.masterAddrReply = some (host, port) ∧
      env.roleReply = some role ∧
      goToUpper role = "MASTER" ∧
      maddr = mkMaddr host port ∧ t' = t := by
  unfold resetIter at h
  by_cases hsd : env.sentinelDialOk = false
  · rw [if_pos hsd] at h
    rcases hfp : findPreferred env.fpEnv t with _ | t2 <;> rw [hfp] at h <;> cases h
  · rw [if_neg hsd] at h
    rcases hrep : env.masterAddrReply with _ | ⟨host, port⟩ <;> rw [hrep] at h <;>
      dsimp only at h
    · rcases hfp : findPreferred env.fpEnv t with _ | t2 <;> rw [hfp] at h <;> cases h
    · by_cases hmd : env.masterDialOk = false
      · rw [if_pos hmd] at h
        cases h
      · rw [if_neg hmd] at h
        rcases hrr : env.roleReply with _ | role <;> rw [hrr] at h <;> dsimp only at h
        · cases h
        · by_cases hru : goToUpper role = "MASTER"
          · rw [if_pos hru] at h
            cases h
            exact ⟨host, port, role, rfl, rfl, hru, rfl, rfl⟩
          · rw [if_neg hru] at h
            cases h

/-- A successful run of the resolution loop ends at an installing
iteration drawn from the supplied environments. -/
theorem resetLoop_installed :
    ∀ (envs : List IterEnv) {t t' : Topo} {maddr : String},
      resetLoop envs t = some (t', maddr) →
      ∃ env ∈ envs, ∃ t₂, resetIter env t₂ = IterOut.installed t' maddr := by
  intro envs
  induction envs with
  | nil => intro t t' maddr h; cases h
  | cons e es ih =>
    intro t t' maddr h
    unfold resetLoop at h
    rcases hi : resetIter e t with _ | t2 | ⟨t2, m2⟩ <;> rw [hi] at h
    · cases h
    · obtain ⟨env, hm, t3, h3⟩ := ih h
      exact ⟨env, List.mem_cons_of_mem e hm, t3, h3⟩
    · cases h
      exact ⟨e, List.mem_cons_self e es, t, hi⟩

/-- Claim C1: every terminating run of `reset` that was not a no-op
installs a master address built from a sentinel reply whose candidate
answered the `ROLE` query with "MASTER" up to case; an iteration whose
candidate reports any other role continues the loop without installing
anything. -/
theorem reset_installs_verified_master :
    (∀ envs subEnv (s s' : MState) evs,
        s.state ≠ ClientState.Resetting →
        reset envs subEnv s = some (s', evs) →
        ∃ env ∈ envs, ∃ host port role,
          env.masterAddrReply = some (host, port) ∧
          env.roleReply = some role ∧
          goToUpper role = "MASTER" ∧
          s'.master = mkMaddr host port) ∧
    (∀ env (t : Topo) host port role,
        env.sentinelDialOk = true →
        env.masterAddrReply = some (host, port) →
        env.masterDialOk = true →
        env.roleReply = some role →
        goToUpper role ≠ "MASTER" →
        resetIter env t = IterOut.cont t) := by
  constructor
  · intro envs subEnv s s' evs hstate hr
    unfold reset at hr
    rw [if_neg hstate] at hr
    rcases hloop : resetLoop envs s.topo with _ | ⟨t', maddr⟩ <;> rw [hloop] at hr <;>
      dsimp only at hr
    · cases hr
    · cases hr
      obtain ⟨env, hm, t₂, hinst⟩ := resetLoop_installed envs hloop
      obtain ⟨host, port, role, h1, h2, h3, h4, -⟩ := resetIter_installed_role hinst
      exact ⟨env, hm, host, port, role, h1, h2, h3, h4⟩
  · intro env t host port role hsd hrep hmd hrr hru
    simp [resetIter, hsd, hrep, hmd, hrr, hru]

/-- Witness for C1: a concrete run of `reset` over one environment whose
candidate reports role "master". -/
theorem reset_installs_verified_master_witness :
    ∃ env ∈ [({ sentinelDialOk := true,
                masterAddrReply := some ("10.0.0.5", "6379"),
                masterDialOk := true, roleReply := some "master",
                fpEnv := { queryOk := true, records := [],
                           connectNs := fun _ => none } } : IterEnv)],
      ∃ host port role,
        env.masterAddrReply = some (host, port) ∧
        env.roleReply = some role ∧
        goToUpper role = "MASTER" ∧
        ({ state := ClientState.Healthy, master := "10.0.0.5:6379",
           masterName := "mm", topo := { p := "s1", hps := ["s1"] },
           poolExists := true, up := true, n := [] } : MState).master =
          mkMaddr host port :=
  reset_installs_verified_master.1
    [{ sentinelDialOk := true, masterAddrReply := some ("10.0.0.5", "6379"),
       masterDialOk := true, roleReply := some "master",
       fpEnv := { queryOk := true, records := [], connectNs := fun _ => none } }]
    (fun _ _ => true)
    { state := ClientState.Healthy, master := "old:1", masterName := "mm",
      topo := { p := "s1", hps := ["s1"] }, poolExists := true, up := true,
      n := [] }
    _ [Ev.emptyPool, Ev.newPool, Ev.fillPool] (by decide) (by decide)

/-- `mergeHps` only ever appends to the known set. -/
theorem mergeHps_extends :
    ∀ (records : List (List String)) (hps : List String),
      ∃ t, mergeHps hps records = hps ++ t := by
  intro records
  induction records with
  | nil => intro hps; exact ⟨[], by simp [mergeHps]⟩
  | cons v vs ih =>
    intro hps
    simp only [mergeHps]
    by_cases h : recHp v ∈ hps
    · rw [if_pos h]
      exact ih hps
    · rw [if_neg h]
      obtain ⟨t, ht⟩ := ih (hps ++ [recHp v])
      exact ⟨recHp v :: t, by rw [ht, List.append_assoc]; rfl⟩

/-- `mergeHps` preserves freedom from duplicates. -/
theorem mergeHps_nodup :
    ∀ (records : List (List String)) (hps : List String),
      hps.Nodup → (mergeHps hps records).Nodup := by
  intro records
  induction records with
  | nil => intro hps h; simpa [mergeHps] using h
  | cons v vs ih =>
    intro hps h
    simp only [mergeHps]
    by_cases hm : recHp v ∈ hps
    · rw [if_pos hm]
      exact ih hps h
    · rw [if_neg hm]
      refine ih _ ?_
      simp [List.nodup_append, h, hm]

/-- A successful `findPreferred` merges the reported peers into the
known set and takes the preferred sentinel from the latency scan. -/
theorem findPreferred_hps {env : FPEnv} {t t' : Topo}
    (h : findPreferred env t = some t') :
    t'.hps = mergeHps t.hps env.records ∧
    t'.p = (scanFastest env.connectNs (mergeHps t.hps env.records)
      ((if t.p.length = 0 then t.hps.headD "" else t.p), oneSecondNs)).1 := by
  unfold findPreferred at h
  dsimp only at h
  by_cases h1 : env.queryOk = false
  · rw [if_pos h1] at h
    cases h
  · rw [if_neg h1] at h
    by_cases h2 : env.records.all (fun v => 6 ≤ v.length) = false
    · rw [if_pos h2] at h
      cases h
    · rw [if_neg h2] at h
      cases h
      exact ⟨rfl, rfl⟩

/-- Claim C5: the known-sentinel set never holds duplicates and never
shrinks: one merge, and any sequence of discovery invocations, keeps the
set duplicate-free and only appends new addresses at the end. -/
theorem hps_nodup_monotone :
    (∀ (hps : List String) records, hps.Nodup →
        (mergeHps hps records).Nodup ∧ ∃ t, mergeHps hps records = hps ++ t) ∧
    (∀ envs (t t' : Topo), t.hps.Nodup → runDiscoveries envs t = some t' →
        t'.hps.Nodup ∧ ∃ tail, t'.hps = t.hps ++ tail) := by
  constructor
  · intro hps records h
    exact ⟨mergeHps_nodup records hps h, mergeHps_extends records hps⟩
  · intro envs
    induction envs with
    | nil =>
      intro t t' h hr
      cases hr
      exact ⟨h, [], by simp⟩
    | cons e es ih =>
      intro t t' h hr
      unfold runDiscoveries at hr
      rcases hfp : findPreferred e t with _ | t1 <;> rw [hfp] at hr
      · cases hr
      · have hhps : t1.hps = mergeHps t.hps e.records := (findPreferred_hps hfp).1
        have h1 : t1.hps.Nodup := by
          rw [hhps]
          exact mergeHps_nodup _ _ h
        obtain ⟨h2, tail, h3⟩ := ih t1 t' h1 hr
        obtain ⟨t0, ht0⟩ := mergeHps_extends e.records t.hps
        exact ⟨h2, t0 ++ tail, by rw [h3, hhps, ht0, List.append_assoc]⟩

/-- Witness for C5: one discovery invocation over a concrete peer-list
reply extends a concrete singleton known set without duplicating it. -/
theorem hps_nodup_monotone_witness :
    ({ p := "s1", hps := ["s1", "s2:26379"] } : Topo).hps.Nodup ∧
    ∃ tail, ({ p := "s1", hps := ["s1", "s2:26379"] } : Topo).hps =
      ({ p := "s1", hps := ["s1"] } : Topo).hps ++ tail :=
  hps_nodup_monotone.2
    [{ queryOk := true, records := [["", "", "", "s2", "", "26379"]],
       connectNs := fun _ => none }]
    { p := "s1", hps := ["s1"] } { p := "s1", hps := ["s1", "s2:26379"] }
    (by decide) (by decide)

/-- The winner of the latency scan is the starting preferred sentinel or
one of the scanned addresses. -/
theorem scanFastest_fst_mem (probe : String → Option Nat) :
    ∀ (l : List String) (acc : String × Nat),
      (scanFastest probe l acc).1 = acc.1 ∨ (scanFastest probe l acc).1 ∈ l := by
  intro l
  induction l with
  | nil => intro acc; left; rfl
  | cons x rest ih =>
    intro acc
    rcases hp : dialTimeoutProbe probe x with _ | d
    · have he : scanFastest probe (x :: rest) acc = scanFastest probe rest acc := by
        simp only [scanFastest, hp]
      rw [he]
      rcases ih acc with h | h
      · left; exact h
      · right; exact List.mem_cons_of_mem x h
    · by_cases hd : d < acc.2
      · have he : scanFastest probe (x :: rest) acc =
            scanFastest probe rest (x, d) := by
          simp only [scanFastest, hp, if_pos hd]
        rw [he]
        rcases ih (x, d) with h | h
        · right
          rw [h]
          exact List.mem_cons_self x rest
        · right; exact List.mem_cons_of_mem x h
      · have he : scanFastest probe (x :: rest) acc = scanFastest probe rest acc := by
          simp only [scanFastest, hp, if_neg hd]
        rw [he]
        rcases ih acc with h | h
        · left; exact h
        · right; exact List.mem_cons_of_mem x h

/-- A successful `findPreferred` keeps the preferred sentinel inside the
known set. -/
theorem findPreferred_p_mem {env : FPEnv} {t t' : Topo} (hmem : t.p ∈ t.hps)
    (h : findPreferred env t = some t') : t'.p ∈ t'.hps := by
  obtain ⟨hhps, hp⟩ := findPreferred_hps h
  have hne : t.hps ≠ [] := List.ne_nil_of_mem hmem
  have hp0 : (if t.p.length = 0 then t.hps.headD "" else t.p) ∈ t.hps := by
    by_cases hl : t.p.length = 0
    · rw [if_pos hl]
      rcases ht : t.hps with _ | ⟨a, l⟩
      · exact absurd ht hne
      · simp
    · rw [if_neg hl]
      exact hmem
  obtain ⟨tail, htail⟩ := mergeHps_extends env.records t.hps
  have hsub : t.hps ⊆ mergeHps t.hps env.records := by
    rw [htail]
    exact List.subset_append_left _ _
  rw [hp, hhps]
  rcases scanFastest_fst_mem env.connectNs (mergeHps t.hps env.records)
      ((if t.p.length = 0 then t.hps.headD "" else t.p), oneSecondNs) with h1 | h1
  · rw [h1]
    exact hsub hp0
  · exact h1

/-- A continuing iteration of the resolution loop keeps the preferred
sentinel inside the known set. -/
theorem resetIter_cont_mem {env : IterEnv} {t t' : Topo} (hmem : t.p ∈ t.hps)
    (h : resetIter env t = IterOut.cont t') : t'.p ∈ t'.hps := by
  unfold resetIter at h
  by_cases hsd : env.sentinelDialOk = false
  · rw [if_pos hsd] at h
    rcases hfp : findPreferred env.fpEnv t with _ | t2 <;> rw [hfp] at h
    · cases h
    · cases h
      exact findPreferred_p_mem hmem hfp
  · rw [if_neg hsd] at h
    rcases hrep : env.masterAddrReply with _ | ⟨host, port⟩ <;> rw [hrep] at h <;>
      dsimp only at h
    · rcases hfp : findPreferred env.fpEnv t with _ | t2 <;> rw [hfp] at h
      · cases h
      · cases h
        exact findPreferred_p_mem hmem hfp
    · by_cases hmd : env.masterDialOk = false
      · rw [if_pos hmd] at h
        cases h
        exact hmem
      · rw [if_neg hmd] at h
        rcases hrr : env.roleReply with _ | role <;> rw [hrr] at h <;> dsimp only at h
        · cases h
          exact hmem
        · by_cases hru : goToUpper role = "MASTER"
          · rw [if_pos hru] at h
            cases h
          · rw [if_neg hru] at h
            cases h
            exact hmem

/-- Across a whole resolution loop the preferred sentinel stays inside
the known set. -/
theorem resetLoop_topo_mem :
    ∀ (envs : List IterEnv) {t t' : Topo} {maddr : String}, t.p ∈ t.hps →
      resetLoop envs t = some (t', maddr) → t'.p ∈ t'.hps := by
  intro envs
  induction envs with
  | nil => intro t t' maddr _ h; cases h
  | cons e es ih =>
    intro t t' maddr hmem h
    unfold resetLoop at h
    rcases hi : resetIter e t with _ | t2 | ⟨t2, m2⟩ <;> rw [hi] at h
    · cases h
    · exact ih (resetIter_cont_mem hmem hi) h
    · cases h
      obtain ⟨host, port, role, -, -, -, -, ht⟩ := resetIter_installed_role hi
      rw [ht]
      exact hmem

/-- Claim C6: the preferred sentinel address is always a member of the
known-sentinel set: it is seeded so at construction, and both
`findPreferred` and `reset` preserve the membership. -/
theorem preferred_mem_hps :
    (∀ hostPort masterName,
        (initState hostPort masterName).topo.p ∈
          (initState hostPort masterName).topo.hps) ∧
    (∀ env (t t' : Topo), t.p ∈ t.hps → findPreferred env t = some t' →
        t'.p ∈ t'.hps) ∧
    (∀ envs subEnv (s s' : MState) evs, s.topo.p ∈ s.topo.hps →
        reset envs subEnv s = some (s', evs) → s'.topo.p ∈ s'.topo.hps) := by
  refine ⟨fun hostPort masterName => ?_, fun env t t' hmem h =>
    findPreferred_p_mem hmem h, fun envs subEnv s s' evs hmem hr => ?_⟩
  · simp [initState]
  · unfold reset at hr
    by_cases hstate : s.state = ClientState.Resetting
    · rw [if_pos hstate] at hr
      cases hr
      exact hmem
    · rw [if_neg hstate] at hr
      rcases hloop : resetLoop envs s.topo with _ | ⟨t', maddr⟩ <;> rw [hloop] at hr <;>
        dsimp only at hr
      · cases hr
      · cases hr
        exact resetLoop_topo_mem envs hmem hloop

/-- Witness for C6: one concrete discovery invocation keeps the
preferred sentinel inside the known set. -/
theorem preferred_mem_hps_witness :
    ({ p := "s1", hps := ["s1", "s2:26379"] } : Topo).p ∈
      ({ p := "s1", hps := ["s1", "s2:26379"] } : Topo).hps :=
  preferred_mem_hps.2.1
    { queryOk := true, records := [["", "", "", "s2", "", "26379"]],
      connectNs := fun _ => none }
    { p := "s1", hps := ["s1"] } { p := "s1", hps := ["s1", "s2:26379"] }
    (by decide) (by decide)

/-- A successful bounded-timeout probe beats the 100 ms timeout. -/
theorem dialTimeoutProbe_lt {probe : String → Option Nat} {a : String} {d : Nat}
    (h : dialTimeoutProbe probe a = some d) : d < timeout100Ns := by
  unfold dialTimeoutProbe at h
  rcases hc : probe a with _ | d0 <;> rw [hc] at h
  · cases h
  · dsimp only at h
    by_cases hd : d0 < timeout100Ns
    · rw [if_pos hd] at h
      cases h
      exact hd
    · rw [if_neg hd] at h
      cases h

/-- The scan's running minimum never increases and ends below every
successful probe. -/
theorem scanFastest_snd_le (probe : String → Option Nat) :
    ∀ (l : List String) (acc : String × Nat),
      (scanFastest probe l acc).2 ≤ acc.2 ∧
      ∀ a ∈ l, ∀ d, dialTimeoutProbe probe a = some d →
        (scanFastest probe l acc).2 ≤ d := by
  intro l
  induction l with
  | nil =>
    intro acc
    exact ⟨Nat.le_refl _, fun a ha => absurd ha (List.not_mem_nil a)⟩
  | cons x rest ih =>
    intro acc
    rcases hp : dialTimeoutProbe probe x with _ | d
    · have he : scanFastest probe (x :: rest) acc = scanFastest probe rest acc := by
        simp only [scanFastest, hp]
      rw [he]
      refine ⟨(ih acc).1, fun a ha d0 hd0 => ?_⟩
      rcases List.mem_cons.mp ha with rfl | ha2
      · rw [hp] at hd0
        cases hd0
      · exact (ih acc).2 a ha2 d0 hd0
    · by_cases hd : d < acc.2
      · have he : scanFastest probe (x :: rest) acc =
            scanFastest probe rest (x, d) := by
          simp only [scanFastest, hp, if_pos hd]
        rw [he]
        have h1 : (scanFastest probe rest (x, d)).2 ≤ d := (ih (x, d)).1
        refine ⟨Nat.le_trans h1 (Nat.le_of_lt hd), fun a ha d0 hd0 => ?_⟩
        rcases List.mem_cons.mp ha with rfl | ha2
        · rw [hp] at hd0
          cases hd0
          exact h1
        · exact (ih (x, d)).2 a ha2 d0 hd0
      · have he : scanFastest probe (x :: rest) acc = scanFastest probe rest acc := by
          simp only [scanFastest, hp, if_neg hd]
        rw [he]
        refine ⟨(ih acc).1, fun a ha d0 hd0 => ?_⟩
        rcases List.mem_cons.mp ha with rfl | ha2
        · rw [hp] at hd0
          cases hd0
          exact Nat.le_trans (ih acc).1 (Nat.le_of_not_lt hd)
        · exact (ih acc).2 a ha2 d0 hd0

/-- Either the scan leaves the accumulator untouched, or its result is a
successful probe strictly better than the accumulator and strictly
better than every successful probe seen before it in the list. -/
theorem scanFastest_attain (probe : String → Option Nat) :
    ∀ (l : List String) (acc : String × Nat),
      scanFastest probe l acc = acc ∨
      ((scanFastest probe l acc).2 < acc.2 ∧
        dialTimeoutProbe probe (scanFastest probe l acc).1 =
          some (scanFastest probe l acc).2 ∧
        ∃ l₁ l₂, l = l₁ ++ (scanFastest probe l acc).1 :: l₂ ∧
          ∀ a ∈ l₁, ∀ d, dialTimeoutProbe probe a = some d →
            (scanFastest probe l acc).2 < d) := by
  intro l
  induction l with
  | nil => intro acc; left; rfl
  | cons x rest ih =>
    intro acc
    rcases hp : dialTimeoutProbe probe x with _ | d
    · have he : scanFastest probe (x :: rest) acc = scanFastest probe rest acc := by
        simp only [scanFastest, hp]
      rw [he]
      rcases ih acc with h | ⟨h1, h2, l₁, l₂, h3, h4⟩
      · left; exact h
      · right
        refine ⟨h1, h2, x :: l₁, l₂, congrArg (List.cons x) h3, fun a ha d0 hd0 => ?_⟩
        rcases List.mem_cons.mp ha with rfl | ha2
        · rw [hp] at hd0
          cases hd0
        · exact h4 a ha2 d0 hd0
    · by_cases hd : d < acc.2
      · have he : scanFastest probe (x :: rest) acc =
            scanFastest probe rest (x, d) := by
          simp only [scanFastest, hp, if_pos hd]
        rw [he]
        rcases ih (x, d) with h | ⟨h1, h2, l₁, l₂, h3, h4⟩
        · right
          rw [h]
          exact ⟨hd, hp, [], rest, rfl, fun a ha => absurd ha (List.not_mem_nil a)⟩
        · right
          refine ⟨Nat.lt_trans h1 hd, h2, x :: l₁, l₂, congrArg (List.cons x) h3,
            fun a ha d0 hd0 => ?_⟩
          rcases List.mem_cons.mp ha with rfl | ha2
          · rw [hp] at hd0
            cases hd0
            exact h1
          · exact h4 a ha2 d0 hd0
      · have he : scanFastest probe (x :: rest) acc = scanFastest probe rest acc := by
          simp only [scanFastest, hp, if_neg hd]
        rw [he]
        rcases ih acc with h | ⟨h1, h2, l₁, l₂, h3, h4⟩
        · left; exact h
        · right
          refine ⟨h1, h2, x :: l₁, l₂, congrArg (List.cons x) h3, fun a ha d0 hd0 => ?_⟩
          rcases List.mem_cons.mp ha with rfl | ha2
          · rw [hp] at hd0
            cases hd0
            exact Nat.lt_of_lt_of_le h1 (Nat.le_of_not_lt hd)
          · exact h4 a ha2 d0 hd0

/-- When every probe fails the scan returns its accumulator unchanged. -/
theorem scanFastest_id (probe : String → Option Nat) :
    ∀ (l : List String) (acc : String × Nat),
      (∀ a ∈ l, dialTimeoutProbe probe a = none) →
      scanFastest probe l acc = acc := by
  intro l
  induction l with
  | nil => intro acc _; rfl
  | cons x rest ih =>
    intro acc h
    have hx := h x (List.mem_cons_self x rest)
    have he : scanFastest probe (x :: rest) acc = scanFastest probe rest acc := by
      simp only [scanFastest, hx]
    rw [he]
    exact ih acc fun a ha => h a (List.mem_cons_of_mem x ha)

/-- Claim C4: preferred-sentinel selection is a deterministic function
of the per-address probe outcomes: the known set is fixed by the merge
alone (failed probes remove nothing), and whenever some probe succeeds
within the 100 ms timeout, the scan's winner is a successful probe of
minimal latency, strictly smaller than every successful probe occurring
earlier in the list (so a later tie never displaces it); when every
probe fails, the preferred sentinel is left unchanged. -/
theorem findPreferred_latency_selection :
    (∀ env (t t' : Topo), findPreferred env t = some t' →
        t'.hps = mergeHps t.hps env.records ∧
        t'.p = (scanFastest env.connectNs (mergeHps t.hps env.records)
          ((if t.p.length = 0 then t.hps.headD "" else t.p), oneSecondNs)).1) ∧
    (∀ (probe : String → Option Nat) (hps : List String) (p0 : String),
        (∃ a ∈ hps, (dialTimeoutProbe probe a).isSome = true) →
        ∃ d, dialTimeoutProbe probe
            (scanFastest probe hps (p0, oneSecondNs)).1 = some d ∧
          (scanFastest probe hps (p0, oneSecondNs)).2 = d ∧
          (∀ a ∈ hps, ∀ d', dialTimeoutProbe probe a = some d' → d ≤ d') ∧
          ∃ l₁ l₂, hps = l₁ ++ (scanFastest probe hps (p0, oneSecondNs)).1 :: l₂ ∧
            ∀ a ∈ l₁, ∀ d', dialTimeoutProbe probe a = some d' → d < d') ∧
    (∀ (probe : String → Option Nat) (hps : List String) (p0 : String),
        (∀ a ∈ hps, dialTimeoutProbe probe a = none) →
        scanFastest probe hps (p0, oneSecondNs) = (p0, oneSecondNs)) := by
  refine ⟨fun env t t' h => findPreferred_hps h, ?_,
    fun probe hps p0 h => scanFastest_id probe hps _ h⟩
  intro probe hps p0 hex
  obtain ⟨a, ha, hsome⟩ := hex
  obtain ⟨da, hda⟩ := Option.isSome_iff_exists.mp hsome
  rcases scanFastest_attain probe hps (p0, oneSecondNs) with h | ⟨h1, h2, l₁, l₂, h3, h4⟩
  · exfalso
    have hle := (scanFastest_snd_le probe hps (p0, oneSecondNs)).2 a ha da hda
    rw [h] at hle
    have hle2 : oneSecondNs ≤ da := hle
    have hlt := dialTimeoutProbe_lt hda
    have hnum : timeout100Ns < oneSecondNs := by decide
    omega
  · exact ⟨(scanFastest probe hps (p0, oneSecondNs)).2, h2, rfl,
      (scanFastest_snd_le probe hps (p0, oneSecondNs)).2, l₁, l₂, h3, h4⟩

/-- Witness for C4 over two concrete addresses: the strictly faster
probe wins the scan. -/
theorem findPreferred_latency_selection_witness :
    ∃ d, dialTimeoutProbe
        (fun a => if a = "s2" then some 5000000 else
          if a = "s1" then some 7000000 else none)
        (scanFastest
          (fun a => if a = "s2" then some 5000000 else
            if a = "s1" then some 7000000 else none)
          ["s1", "s2"] ("s1", oneSecondNs)).1 = some d ∧
      (scanFastest
        (fun a => if a = "s2" then some 5000000 else
          if a = "s1" then some 7000000 else none)
        ["s1", "s2"] ("s1", oneSecondNs)).2 = d ∧
      (∀ a ∈ ["s1", "s2"], ∀ d',
        dialTimeoutProbe
          (fun a => if a = "s2" then some 5000000 else
            if a = "s1" then some 7000000 else none) a = some d' → d ≤ d') ∧
      ∃ l₁ l₂, ["s1", "s2"] = l₁ ++
          (scanFastest
            (fun a => if a = "s2" then some 5000000 else
              if a = "s1" then some 7000000 else none)
            ["s1", "s2"] ("s1", oneSecondNs)).1 :: l₂ ∧
        ∀ a ∈ l₁, ∀ d',
          dialTimeoutProbe
            (fun a => if a = "s2" then some 5000000 else
              if a = "s1" then some 7000000 else none) a = some d' → d < d' :=
  findPreferred_latency_selection.2.1
    (fun a => if a = "s2" then some 5000000 else
      if a = "s1" then some 7000000 else none)
    ["s1", "s2"] "s1" (by decide)

end Rediss
